import Mathlib

/-!
Shallow embedding of the `another_ext4` filesystem core (Rust) in Lean 4,
used to settle the claims C1..C10 about the crate.

Each definition mirrors one Rust item of the repository; the file and line
references in the doc comments point into the repository's `src/` tree.
Machine integers are modelled as `Nat` with explicit `% 2^w` where wrapping
matters.  Fallible Rust code (returning `Result`) is modelled with `Except`;
a Rust `panic!` / `.unwrap()` failure is modelled as `Option.none`.
-/

namespace Ext4V

/-- `BLOCK_SIZE` from `src/constants.rs` (4096 bytes). -/
def BLOCK_SIZE : Nat := 4096

/-- `EXT_INIT_MAX_LEN` from `src/constants.rs`: an extent whose raw
`block_count` field exceeds this value is uninitialised. -/
def EXT_INIT_MAX_LEN : Nat := 32768

/-- `EXT_MAX_BLOCKS` from `src/constants.rs` (`u32::MAX`). -/
def EXT_MAX_BLOCKS : Nat := 2 ^ 32 - 1

/-- Modelled from the spec: `INODE_BLOCK_SIZE = 4096` (spec §6 Constants and
§9).  The constant itself lives in `prelude.rs`, which is absent from the
`src/` tree (only `lib.rs` declares the module); the spec fixes it to 4096,
making `BLOCK_SIZE / INODE_BLOCK_SIZE = 1`. -/
def INODE_BLOCK_SIZE : Nat := 4096

/-- Error codes used by the claims (`src/error.rs` / `src/constants.rs`). -/
inductive ErrCode where
  | ENOENT
  | EINVAL
  | ENOSPC
  | ENOTDIR
  | ENOTEMPTY
  | EISDIR
  | ELINKFAIL
  deriving DecidableEq, Repr

/-- `Ext4Extent` from `src/src/ext4_defs/extent.rs` (lines 136-153): raw
on-disk fields.  `first_block : u32`, `block_count : u16` (raw, with the
uninitialised encoding), `start_hi : u16`, `start_lo : u32`. -/
structure Ext4Extent where
  first_block : Nat
  block_count_raw : Nat
  start_hi : Nat
  start_lo : Nat
  deriving DecidableEq, Repr

instance : Inhabited Ext4Extent := ⟨⟨0, 0, 0, 0⟩⟩

/-- `Ext4Extent::start_lblock` (extent.rs line 167). -/
def Ext4Extent.start_lblock (e : Ext4Extent) : Nat := e.first_block

/-- `Ext4Extent::start_pblock` (extent.rs line 177): `start_lo | (start_hi << 32)`. -/
def Ext4Extent.start_pblock (e : Ext4Extent) : Nat := e.start_lo + e.start_hi * 2 ^ 32

/-- `Ext4Extent::block_count` (extent.rs lines 188-194): the actual number of
covered blocks, removing the uninitialised tag. -/
def Ext4Extent.block_count (e : Ext4Extent) : Nat :=
  if e.block_count_raw ≤ EXT_INIT_MAX_LEN then e.block_count_raw
  else e.block_count_raw - EXT_INIT_MAX_LEN

/-- `Ext4Extent::is_uninit` (extent.rs line 202). -/
def Ext4Extent.is_uninit (e : Ext4Extent) : Bool :=
  EXT_INIT_MAX_LEN < e.block_count_raw

/-- `Ext4Extent::new` (extent.rs lines 157-164). -/
def Ext4Extent.new (start_lblock start_pblock block_count : Nat) : Ext4Extent :=
  { first_block := start_lblock
    block_count_raw := block_count
    start_hi := start_pblock / 2 ^ 32
    start_lo := start_pblock % 2 ^ 32 }

/-- The loop of `ExtentNode::extent_search`
(`src/src/ext4_defs/extent.rs` lines 271-285).  A leaf node is modelled as
the list of its extents in on-disk order; the Rust index `i` over the entry
array becomes the remaining suffix together with the absolute position `i`.
Returns `Except.ok i` when entry `i` is an initialised extent covering
`lblock`, `Except.error i` with the insertion position otherwise (an
uninitialised covering extent also yields `Err(i)`, as in the source). -/
def extent_search_aux (lblock : Nat) : List Ext4Extent → Nat → Except Nat Nat
  | [], i => .error i
  | e :: rest, i =>
    if e.start_lblock ≤ lblock then
      if lblock < e.start_lblock + e.block_count then
        if e.is_uninit then .error i else .ok i
      else
        extent_search_aux lblock rest (i + 1)
    else
      .error i

/-- `ExtentNode::extent_search` (extent.rs lines 271-285): the loop started
at index 0. -/
def extent_search (entries : List Ext4Extent) (lblock : Nat) : Except Nat Nat :=
  extent_search_aux lblock entries 0

/-- The leaf step of `Ext4::extent_get_pblock`
(`src/src/ext4/extent.rs` lines 59-84): search the leaf node; on a hit,
return `start_pblock + (lblock - start_lblock)` of the found extent,
otherwise fail with `ENOENT`. -/
def extent_get_pblock (entries : List Ext4Extent) (lblock : Nat) :
    Except ErrCode Nat :=
  match extent_search entries lblock with
  | .ok i =>
      let ex := entries.getD i default
      .ok (ex.start_pblock + (lblock - ex.start_lblock))
  | .error _ => .error .ENOENT

/-- `Ext4ExtentIndex` from `src/src/ext4_defs/extent.rs` (lines 112-125):
`first_block : u32`, `leaf_lo : u32`, `leaf_hi : u16` (padding omitted). -/
structure Ext4ExtentIndex where
  first_block : Nat
  leaf_lo : Nat
  leaf_hi : Nat
  deriving DecidableEq, Repr

instance : Inhabited Ext4ExtentIndex := ⟨⟨0, 0, 0⟩⟩

/-- `Ext4ExtentIndex::leaf` (extent.rs lines 129-131): `(leaf_hi << 32) | leaf_lo`. -/
def Ext4ExtentIndex.leaf (x : Ext4ExtentIndex) : Nat := x.leaf_lo + x.leaf_hi * 2 ^ 32

/-- The loop of `ExtentNode::extent_index_search`
(`src/src/ext4_defs/extent.rs` lines 293-305).  The Rust loop advances `i`
while `entries[i].first_block <= lblock`; the first entry above `lblock`
makes it return `Ok(i - 1)`, a `usize` subtraction that wraps for `i = 0`
(modelled mod `2^64`); running off the end of the entries returns
`Err(entries_count)`. -/
def extent_index_search_aux (lblock : Nat) : List Ext4ExtentIndex → Nat → Except Nat Nat
  | [], i => .error i
  | x :: rest, i =>
    if x.first_block ≤ lblock then
      extent_index_search_aux lblock rest (i + 1)
    else
      .ok ((i + (2 ^ 64 - 1)) % 2 ^ 64)

/-- `ExtentNode::extent_index_search` (extent.rs lines 293-305). -/
def extent_index_search (entries : List Ext4ExtentIndex) (lblock : Nat) :
    Except Nat Nat :=
  extent_index_search_aux lblock entries 0

/-- One interior descent step of `Ext4::find_extent`
(`src/src/ext4/extent.rs` lines 33-49): search the index entries of the
node; `if index.is_err() { panic!("Unhandled error") }` is modelled as
`none`; on `Ok(i)` the walk descends to the child block
`entries[i].leaf()`. -/
def find_extent_index_step (entries : List Ext4ExtentIndex) (lblock : Nat) :
    Option Nat :=
  match extent_index_search entries lblock with
  | .ok i => some (entries.getD i default).leaf
  | .error _ => none

/-- Modelled from the spec (§4.5 Query): "at each interior level
binary-search the indices for the greatest entry with
`first_lblock ≤ lblock`".  Returns the position of that entry, `none` when
no entry qualifies. -/
def spec_index_select (entries : List Ext4ExtentIndex) (lblock : Nat) :
    Option Nat :=
  (((List.range entries.length).filter
    (fun i => (entries.getD i default).first_block ≤ lblock))).getLast?

/-- `Bitmap::is_bit_clear` (`src/src/ext4_defs/bitmap.rs` lines 12-14).
A bitmap is a byte slice, modelled as a list of bytes; bit `i` is bit
`i % 8` of byte `i / 8`. -/
def is_bit_clear (bmap : List Nat) (bit : Nat) : Bool :=
  (bmap.getD (bit / 8) 0) &&& (1 <<< (bit % 8)) == 0

/-- `Bitmap::set_bit` (bitmap.rs lines 20-22). -/
def set_bit (bmap : List Nat) (bit : Nat) : List Nat :=
  bmap.set (bit / 8) ((bmap.getD (bit / 8) 0) ||| (1 <<< (bit % 8)))

/-- `Bitmap::clear_bit` (bitmap.rs lines 24-26): `byte &= !(1 << k)` on `u8`. -/
def clear_bit (bmap : List Nat) (bit : Nat) : List Nat :=
  bmap.set (bit / 8) ((bmap.getD (bit / 8) 0) &&& (255 ^^^ (1 <<< (bit % 8))))

/-- `Bitmap::first_clear_bit` (bitmap.rs lines 29-36): first clear bit in
`[start, stop)`. -/
def first_clear_bit (bmap : List Nat) (start stop : Nat) : Option Nat :=
  (List.range' start (stop - start)).find? (fun i => is_bit_clear bmap i)

/-- `Bitmap::find_and_set_first_clear_bit` (bitmap.rs lines 39-44). -/
def find_and_set_first_clear_bit (bmap : List Nat) (start stop : Nat) :
    Option (List Nat × Nat) :=
  (first_clear_bit bmap start stop).map (fun bit => (set_bit bmap bit, bit))

/-- The state touched by `Ext4::alloc_block`
(`src/src/ext4/alloc.rs` lines 94-138), restricted to the inode's block
group (the function only reads and writes the group of its inode
argument): the group's block bitmap, the superblock and group free-block
counters, and the inode's block count. -/
structure BlockAllocState where
  block_bitmap : List Nat
  sb_free_blocks : Nat
  bg_free_blocks : Nat
  inode_block_count : Nat
  deriving DecidableEq, Repr

/-- `Ext4::alloc_block` (alloc.rs lines 94-138): find and set the first
clear bit of the group's block bitmap in `[0, 8 * BLOCK_SIZE)` (`ENOSPC`
when none), decrement the superblock and group free-block counters, and
add `BLOCK_SIZE / INODE_BLOCK_SIZE` to the inode's block count.  Returns
the new state and the allocated physical block id. -/
def alloc_block (s : BlockAllocState) : Except ErrCode (BlockAllocState × Nat) :=
  match find_and_set_first_clear_bit s.block_bitmap 0 (8 * BLOCK_SIZE) with
  | none => .error .ENOSPC
  | some (bmap', fblock) =>
      .ok ({ block_bitmap := bmap'
             sb_free_blocks := s.sb_free_blocks - 1
             bg_free_blocks := s.bg_free_blocks - 1
             inode_block_count :=
               s.inode_block_count + BLOCK_SIZE / INODE_BLOCK_SIZE }, fblock)

/-- The root extent node's `max_entries_count`: the inode's 60-byte
inline area holds the 12-byte header plus at most `(60 - 12) / 12 = 4`
entries (spec §4.4: the root is initialised with `max_entries = 4`). -/
def ROOT_MAX_ENTRIES : Nat := 4

/-- `ExtentNodeMut::insert_extent` on the depth-0 root node (the method
body is absent from `src/`; modelled from the spec §4.5, as for C8):
shift the following entries right and place the new extent at the
insertion index; when `entries_count` would exceed the root's
`max_entries_count` (= `ROOT_MAX_ENTRIES`), keep the left half in the
node and return the right half as the split (`Err(split)` in the
source).  The spec does not fix the split point; half of the overfull
list is used, as in `insert_extent_spec`. -/
def insert_extent_leaf_root (entries : List Ext4Extent) (ext : Ext4Extent)
    (pos : Nat) : List Ext4Extent × Option (List Ext4Extent) :=
  let all := entries.insertIdx pos ext
  if all.length ≤ ROOT_MAX_ENTRIES then (all, none)
  else (all.take (all.length / 2), some (all.drop (all.length / 2)))

/-- The extent tree after inserting into a depth-0 root: either the root
is still the single leaf, or `split_root` ran and the root now holds two
index entries over the child blocks `l_bid` (left half) and `r_bid`
(split-off right half). -/
inductive RootTree where
  | leaf (entries : List Ext4Extent)
  | indexed (l_bid r_bid : Nat) (left right : List Ext4Extent)
  deriving DecidableEq, Repr

/-- `Ext4::insert_extent` (`src/src/ext4/extent.rs` lines 127-173) for a
depth-0 tree, where the leaf is the root (`leaf.pblock == 0`, lines
134-146): insert into the root node; when that returns a split,
`Ext4::split_root` (extent.rs lines 228-267) allocates the two child
blocks via `alloc_block` (lines 230-231) — each allocation adding
`BLOCK_SIZE / INODE_BLOCK_SIZE` to the inode's block count (alloc.rs
line 126) — and moves the root's retained entries into the left child
and the split into the right child. -/
def insert_extent_depth0 (s : BlockAllocState) (extents : List Ext4Extent)
    (ext : Ext4Extent) (pos : Nat) :
    Except ErrCode (BlockAllocState × RootTree) :=
  match insert_extent_leaf_root extents ext pos with
  | (all, none) => .ok (s, .leaf all)
  | (kept, some split) =>
      match alloc_block s with
      | .error e => .error e
      | .ok (s1, l_bid) =>
          match alloc_block s1 with
          | .error e => .error e
          | .ok (s2, r_bid) => .ok (s2, .indexed l_bid r_bid kept split)

/-- `Ext4::extent_get_pblock_create` (`src/src/ext4/extent.rs` lines
88-124) for an inode whose extent tree is a depth-0 root, so
`find_extent` returns the root itself as the leaf.  On a hit, return the
mapped physical block; on a miss, clamp the length to
`EXT_MAX_BLOCKS - iblock`, allocate one physical block via `alloc_block`,
and insert `Extent::new(iblock, fblock, count)` through `insert_extent`
(which runs `split_root` with its two further block allocations when the
root is full). -/
def extent_get_pblock_create (s : BlockAllocState) (extents : List Ext4Extent)
    (iblock block_count : Nat) :
    Except ErrCode (BlockAllocState × RootTree × Nat) :=
  match extent_search extents iblock with
  | .ok i =>
      let ex := extents.getD i default
      .ok (s, .leaf extents, ex.start_pblock + (iblock - ex.start_lblock))
  | .error pos =>
      let cnt := min block_count (EXT_MAX_BLOCKS - iblock)
      match alloc_block s with
      | .error e => .error e
      | .ok (s', fblock) =>
          match insert_extent_depth0 s' extents (Ext4Extent.new iblock fblock cnt) pos with
          | .error e => .error e
          | .ok (s'', tree) => .ok (s'', tree, fblock)

/-- `Ext4::inode_append_block` (`src/src/ext4/alloc.rs` lines 76-91):
compute `iblock = ceil(size / BLOCK_SIZE)`, call
`extent_get_pblock_create(inode, iblock, 1)`, then add 1 to the inode's
block count.  Returns the new state, the resulting tree, and the pair
`(iblock, fblock)`. -/
def inode_append_block (s : BlockAllocState) (inode_size : Nat)
    (extents : List Ext4Extent) :
    Except ErrCode (BlockAllocState × RootTree × Nat × Nat) :=
  let iblock := (inode_size + BLOCK_SIZE - 1) / BLOCK_SIZE
  match extent_get_pblock_create s extents iblock 1 with
  | .error e => .error e
  | .ok (s', tree, fblock) =>
      .ok ({ s' with inode_block_count := s'.inode_block_count + 1 },
        tree, iblock, fblock)

/-- `Ext4BlockGroupDesc` (`src/src/ext4_defs/block_group.rs` lines 18-43),
restricted to the 16-bit counter half-fields the claims touch. -/
structure Ext4BlockGroupDesc where
  free_inodes_count_lo : Nat
  free_inodes_count_hi : Nat
  used_dirs_count_lo : Nat
  used_dirs_count_hi : Nat
  itable_unused_lo : Nat
  itable_unused_hi : Nat
  deriving DecidableEq, Repr

/-- `EXT4_MIN_BLOCK_GROUP_DESCRIPTOR_SIZE` from `src/constants.rs`. -/
def EXT4_MIN_BGDESC_SIZE : Nat := 32

/-- `Ext4BlockGroupDesc::get_free_inodes_count` (block_group.rs lines
139-141): `((hi as u64) << 32) as u32 | lo` — the `as u32` cast truncates
the shifted high half away, so only `lo` contributes; the truncation is
written out. -/
def get_free_inodes_count (d : Ext4BlockGroupDesc) : Nat :=
  ((d.free_inodes_count_hi <<< 32) % 2 ^ 32) ||| d.free_inodes_count_lo

/-- `Ext4BlockGroupDesc::set_free_inodes_count` (block_group.rs lines
124-129): `lo = ((cnt << 16) >> 16) as u16` on `u32`; `hi = (cnt >> 16) as
u16` only when the descriptor is larger than 32 bytes. -/
def set_free_inodes_count (desc_size : Nat) (d : Ext4BlockGroupDesc)
    (cnt : Nat) : Ext4BlockGroupDesc :=
  let d := { d with free_inodes_count_lo := (((cnt <<< 16) % 2 ^ 32) >>> 16) % 2 ^ 16 }
  if EXT4_MIN_BGDESC_SIZE < desc_size then
    { d with free_inodes_count_hi := (cnt >>> 16) % 2 ^ 16 }
  else d

/-- `Ext4BlockGroupDesc::get_used_dirs_count` (block_group.rs lines
102-108); as with the other getters the `as u32` cast zeroes the shifted
high half. -/
def get_used_dirs_count (d : Ext4BlockGroupDesc) : Nat :=
  ((d.used_dirs_count_hi <<< 32) % 2 ^ 32) ||| d.used_dirs_count_lo

/-- `Ext4BlockGroupDesc::set_used_dirs_count` (block_group.rs lines
110-115).  The body stores into `itable_unused_lo` / `itable_unused_hi`,
not into the `used_dirs_count` fields — modelled exactly as written. -/
def set_used_dirs_count (desc_size : Nat) (d : Ext4BlockGroupDesc)
    (cnt : Nat) : Ext4BlockGroupDesc :=
  let d := { d with itable_unused_lo := (((cnt <<< 16) % 2 ^ 32) >>> 16) % 2 ^ 16 }
  if EXT4_MIN_BGDESC_SIZE < desc_size then
    { d with itable_unused_hi := (cnt >>> 16) % 2 ^ 16 }
  else d

/-- `Ext4BlockGroupDesc::get_itable_unused` (block_group.rs lines 94-100). -/
def get_itable_unused (d : Ext4BlockGroupDesc) : Nat :=
  ((d.itable_unused_hi <<< 32) % 2 ^ 32) ||| d.itable_unused_lo

/-- `Ext4BlockGroupDesc::set_itable_unused` (block_group.rs lines 117-122). -/
def set_itable_unused (desc_size : Nat) (d : Ext4BlockGroupDesc)
    (cnt : Nat) : Ext4BlockGroupDesc :=
  let d := { d with itable_unused_lo := (((cnt <<< 16) % 2 ^ 32) >>> 16) % 2 ^ 16 }
  if EXT4_MIN_BGDESC_SIZE < desc_size then
    { d with itable_unused_hi := (cnt >>> 16) % 2 ^ 16 }
  else d

/-- Modelled from the spec: the superblock's free-inode counter
(`super_block.rs` is declared in `ext4_defs/mod.rs` but absent from the
`src/` tree).  Spec §3: the superblock carries a free-inode counter. -/
structure SuperBlockCounters where
  free_inodes_count : Nat
  deriving DecidableEq, Repr

/-- Modelled from the spec: `SuperBlock::decrease_free_inodes_count`
(absent `super_block.rs`); per its name and the spec §4.3 allocator step
"Decrement the superblock's free-inode count", it decrements the counter
by 1. -/
def decrease_free_inodes_count (sb : SuperBlockCounters) : SuperBlockCounters :=
  { sb with free_inodes_count := sb.free_inodes_count - 1 }

/-- The state touched by `Ext4::alloc_inode` / `Ext4::dealloc_inode`
(`src/src/ext4/alloc.rs` lines 189-256 and 259-311) on a filesystem with
a single block group (group 0, `inodes_per_group = inode_count_in_group =
inode_count`): the group's inode bitmap (sliced to `inode_count / 8`
bytes as in the source), the descriptor counters, and the superblock
counter.  `desc_size` is the superblock's descriptor size. -/
structure InodeAllocState where
  ibitmap : List Nat
  desc : Ext4BlockGroupDesc
  sb : SuperBlockCounters
  inode_count : Nat
  desc_size : Nat
  deriving DecidableEq, Repr

/-- `Ext4::alloc_inode` (alloc.rs lines 189-256), single-group case: skip
the group when its free-inode count is 0 (here: fail with `ENOSPC`), find
and set the first clear bitmap bit in `[0, inode_count)`, decrement the
group free-inode count, increment the used-dir count when `is_dir`,
update the unused-inode-table-tail count when the new index reaches past
the previous free boundary, decrement the superblock count, and return
the inode id `bgid * inodes_per_group + idx_in_bg + 1` with `bgid = 0`. -/
def alloc_inode (s : InodeAllocState) (is_dir : Bool) :
    Except ErrCode (InodeAllocState × Nat) :=
  if get_free_inodes_count s.desc = 0 then .error .ENOSPC
  else
    match find_and_set_first_clear_bit s.ibitmap 0 s.inode_count with
    | none => .error .ENOSPC
    | some (bmap', idx_in_bg) =>
        let d := set_free_inodes_count s.desc_size s.desc
          (get_free_inodes_count s.desc - 1)
        let d := if is_dir then
            set_used_dirs_count s.desc_size d (get_used_dirs_count d + 1)
          else d
        let unused := get_itable_unused d
        let free := s.inode_count - unused
        let d := if free ≤ idx_in_bg then
            set_itable_unused s.desc_size d (s.inode_count - (idx_in_bg + 1))
          else d
        .ok ({ s with
                ibitmap := bmap'
                desc := d
                sb := decrease_free_inodes_count s.sb }, idx_in_bg + 1)

/-- `Ext4::dealloc_inode` (alloc.rs lines 259-311), single-group case:
fail with `EINVAL` when the inode's bitmap bit is already clear,
otherwise clear it, increment the group free-inode count, decrement the
used-dir count when the inode is a directory, increment the
unused-inode-table-tail count, and update the superblock — the source
calls `decrease_free_inodes_count` there (line 307). -/
def dealloc_inode (s : InodeAllocState) (inode_id : Nat) (is_dir : Bool) :
    Except ErrCode InodeAllocState :=
  let idx_in_bg := (inode_id - 1) % s.inode_count
  if is_bit_clear s.ibitmap idx_in_bg then .error .EINVAL
  else
    let bmap' := clear_bit s.ibitmap idx_in_bg
    let d := set_free_inodes_count s.desc_size s.desc
      (get_free_inodes_count s.desc + 1)
    let d := if is_dir then
        set_used_dirs_count s.desc_size d (get_used_dirs_count d - 1)
      else d
    let d := set_itable_unused s.desc_size d (get_itable_unused d + 1)
    .ok { s with
           ibitmap := bmap'
           desc := d
           sb := decrease_free_inodes_count s.sb }

/-- The fields of `Ext4DirEntry` read by the first-pass walk of
`Ext4::ext4_dir_try_insert_entry` (`src/src/ext4/dir.rs` lines 132-206):
the referenced inode id, the record length `entry_len`, and the name
length. -/
structure DirEntRec where
  inode : Nat
  entry_len : Nat
  name_len : Nat
  deriving DecidableEq, Repr

/-- `size_of::<Ext4DirEntry>()` for the `repr(C)` struct of
`src/src/ext4_defs/dir_entry.rs` lines 40-46 (`u32 + u16 + u8 + union u8
+ [u8; 255]`, 4-byte aligned): 264 bytes. -/
def SIZE_OF_DIR_ENTRY : Nat := 264

/-- `size_of::<Ext4FakeDirEntry>()` (dir_entry.rs lines 210-215): 8 bytes. -/
def SIZE_OF_FAKE_DIR_ENTRY : Nat := 8

/-- The `required_len` computation of `ext4_dir_try_insert_entry`
(dir.rs lines 140-144). -/
def dir_required_len (name_len : Nat) : Nat :=
  let r := SIZE_OF_DIR_ENTRY + name_len
  if r % 4 ≠ 0 then r + (4 - r % 4) else r

/-- The `sz` computation of `ext4_dir_try_insert_entry` (dir.rs lines
158-163): used size of an existing record. -/
def dir_used_size (name_len : Nat) : Nat :=
  let sz := SIZE_OF_FAKE_DIR_ENTRY + name_len
  if name_len % 4 ≠ 0 then sz + (4 - name_len % 4) else sz

/-- Outcome of the directory-insert first pass (`EOK` / `ENOSPC` in the
source). -/
inductive InsertOutcome where
  | eok
  | enospc
  deriving DecidableEq, Repr

/-- The record walk of `Ext4::ext4_dir_try_insert_entry` (dir.rs lines
146-205).  The block is modelled by `rec_at`, the record decoded at a
given byte offset (`Ext4DirEntry::try_from(&data[offset..])`), and its
byte length `block_len`; `required` is `required_len`.  The walk carries
explicit fuel counting loop iterations — the Rust loop has none, so a
result of `none` at every fuel value is an infinite loop.  On
`de.inode == 0` the source executes `continue;` without advancing
`offset` (dir.rs lines 150-152); `some .eok` models the
split-insert-return path, `some .enospc` the fall-through. -/
def dir_try_insert_walk (rec_at : Nat → DirEntRec) (block_len required : Nat) :
    Nat → Nat → Option InsertOutcome
  | 0, _ => none
  | fuel + 1, offset =>
    if offset < block_len then
      let de := rec_at offset
      if de.inode = 0 then
        dir_try_insert_walk rec_at block_len required fuel offset
      else
        let sz := dir_used_size de.name_len
        let free_space := de.entry_len - sz
        if required ≤ free_space then some .eok
        else dir_try_insert_walk rec_at block_len required fuel (offset + de.entry_len)
    else some .enospc

/-- A concrete directory block as `Remove` leaves one: a used record
(inode 21, name length 4, `rec_len` 12, no slack) at offset 0, then an
unused record (inode 0, `rec_len` 4072 preserved) at offset 12; together
with the 12-byte tail the records tile the 4096-byte block. -/
def c5_block : Nat → DirEntRec := fun offset =>
  if offset = 0 then ⟨21, 12, 4⟩
  else if offset = 12 then ⟨0, 4072, 4⟩
  else ⟨0, 0, 0⟩

/-- Rust `str::split('/')` on a path modelled as a list of characters:
cut at every '/', keeping empty segments (exactly as Rust `split` does;
in particular a leading '/' produces a leading empty segment). -/
def split_on_slash (s : List Char) : List (List Char) :=
  match s with
  | [] => [[]]
  | c :: rest =>
    if c = '/' then [] :: split_on_slash rest
    else
      match split_on_slash rest with
      | seg :: segs => (c :: seg) :: segs
      | [] => [[c]]

/-- Rust `str::trim_start_matches("/")`: drop every leading '/'. -/
def trim_start_slashes (s : List Char) : List Char :=
  s.dropWhile (fun c => c = '/')

/-- `Ext4::split_path` (`src/src/ext4/high_level.rs` lines 150-156).  The
source computes `path.trim_start_matches("/")` but binds the result to
`_`, discarding it (line 151); the emptiness test and the split then run
on the original `path`. -/
def split_path (path : List Char) : List (List Char) :=
  let _trimmed := trim_start_slashes path
  if path.isEmpty then [] else split_on_slash path

/-- Modelled from the spec (§4.7): path splitting with the leading
separators actually trimmed, the empty path meaning the starting
directory itself. -/
def spec_split_path (path : List Char) : List (List Char) :=
  let p := trim_start_slashes path
  if p.isEmpty then [] else split_on_slash p

/-- `Ext4::lookup` (`src/src/ext4/low_level.rs` lines 389-397) over a
directory-map abstraction: `dirs` gives each inode id's listing and
`isdir` the directory test; the entry search (`Ext4::dir_find_entry`,
whose body is absent from `src/`) is modelled from the spec §4.6 Find:
return the first record whose name matches exactly, else `ENOENT`. -/
def mini_lookup (isdir : Nat → Bool) (dirs : Nat → List (List Char × Nat))
    (parent : Nat) (name : List Char) : Except ErrCode Nat :=
  if isdir parent then
    match (dirs parent).find? (fun e => e.1 = name) with
    | some e => .ok e.2
    | none => .error .ENOENT
  else .error .ENOTDIR

/-- `Ext4::generic_lookup` (`src/src/ext4/high_level.rs` lines 27-36):
split the path and chain `lookup` over the segments, starting at `root`. -/
def generic_lookup (isdir : Nat → Bool) (dirs : Nat → List (List Char × Nat))
    (root : Nat) (path : List Char) : Except ErrCode Nat :=
  (split_path path).foldlM (fun cur seg => mini_lookup isdir dirs cur seg) root

/-- The directory map for the C6 counterexample: inode 2 is a directory
listing `.`, `..` and a child `a` at inode 5. -/
def c6_dirs : Nat → List (List Char × Nat) := fun d =>
  if d = 2 then [(['.'], 2), (['.', '.'], 2), (['a'], 5)] else []

/-- The directory predicate for the C6 counterexample. -/
def c6_isdir : Nat → Bool := fun d => d = 2

/-- The `usize` modulus (64-bit host). -/
def USIZE_MOD : Nat := 2 ^ 64

/-- The block-copy loop of `Ext4::read` (`src/src/ext4/low_level.rs`
lines 186-195): while `cursor < read_size`, take
`read_len = min(BLOCK_SIZE, read_size - cursor)`, resolve `iblock` via
`self.extent_query(..).unwrap()` (a failed resolution panics, modelled as
`none`), copy `read_len` bytes from the start of physical block `fblock`
(`block.read_offset(0, read_len)`), and advance.  `query` maps a logical
block to its physical block, `dev pblock i` is byte `i` of the block.
The explicit `fuel` only bounds the iteration count — the Rust loop has
no fuel; `ext4_read` passes `read_size`, which the loop can never
exhaust, because every iteration advances `cursor` by at least 1, so the
embedding is exact. -/
def read_loop (query : Nat → Option Nat) (dev : Nat → Nat → Nat)
    (read_size : Nat) : Nat → Nat → Nat → List Nat → Option (List Nat)
  | 0, cursor, _, acc => if cursor < read_size then none else some acc
  | fuel + 1, cursor, iblock, acc =>
    if cursor < read_size then
      let read_len := min BLOCK_SIZE (read_size - cursor)
      match query iblock with
      | none => none
      | some fblock =>
          read_loop query dev read_size fuel (cursor + read_len) (iblock + 1)
            (acc ++ (List.range read_len).map (fun k => dev fblock k))
    else some acc

/-- `Ext4::read` (`src/src/ext4/low_level.rs` lines 156-198) for a
regular-file inode (the preceding `EISDIR` guard is not modelled).
`size` is `inode.size()`, `offset` and `buf_len` the call arguments.
The clamp `file.inode.size() as usize - offset` (line 168) is a `usize`
subtraction: in a release build it wraps, modelled as arithmetic mod
`2^64` (a checked build panics right there on underflow — either way the
function is not the claimed clamp when `offset > size`).  The first,
misaligned block copies `read_len` bytes starting at byte `misaligned`
(lines 177-185); the remaining blocks are copied by `read_loop`.
Returns the bytes copied into the caller's buffer; `none` models a
panic. -/
def ext4_read (size offset buf_len : Nat) (query : Nat → Option Nat)
    (dev : Nat → Nat → Nat) : Option (List Nat) :=
  if buf_len = 0 then some []
  else
    let read_size := min buf_len
      ((size % USIZE_MOD + (USIZE_MOD - offset % USIZE_MOD)) % USIZE_MOD)
    let start_iblock := offset / BLOCK_SIZE
    let misaligned := offset % BLOCK_SIZE
    if 0 < misaligned then
      let read_len := min (BLOCK_SIZE - misaligned) read_size
      match query start_iblock with
      | none => none
      | some fblock =>
          read_loop query dev read_size read_size read_len (start_iblock + 1)
            ((List.range read_len).map (fun k => dev fblock (misaligned + k)))
    else
      read_loop query dev read_size read_size 0 start_iblock []

/-- A raw 12-byte extent-node entry (`FakeExtent` in the source; the type
itself is absent from `src/` but is what `split_root` copies): three
32-bit words.  An `Extent` and an `ExtentIndex` share the layout of the
first word (`first_block`), so reading entry 0 of a node as an extent
yields its `first_block` whichever kind it is
(`left.extent_at(0).start_lblock()` in `split_root`). -/
structure FakeExtent where
  first_block : Nat
  w1 : Nat
  w2 : Nat
  deriving DecidableEq, Repr

instance : Inhabited FakeExtent := ⟨⟨0, 0, 0⟩⟩

/-- View of an `Ext4Extent` as a raw entry: word 1 packs
`block_count_raw | start_hi << 16`, word 2 is `start_lo`. -/
def FakeExtent.ofExtent (e : Ext4Extent) : FakeExtent :=
  ⟨e.first_block, e.block_count_raw + e.start_hi * 2 ^ 16, e.start_lo⟩

/-- View of an `Ext4ExtentIndex` as a raw entry: word 1 is `leaf_lo`,
word 2 holds `leaf_hi` (the padding half-word is zero). -/
def FakeExtent.ofIndex (x : Ext4ExtentIndex) : FakeExtent :=
  ⟨x.first_block, x.leaf_lo, x.leaf_hi⟩

/-- `ExtentIndex::new(first_lblock, pblock)` (called at extent.rs lines
202-203 and 258-259; the constructor body is absent from `src/`):
modelled from the struct layout, storing the low 32 bits of the block id
in `leaf_lo` and the next 16 in `leaf_hi`. -/
def Ext4ExtentIndex.new (first_lblock pblock : Nat) : Ext4ExtentIndex :=
  ⟨first_lblock, pblock % 2 ^ 32, (pblock >>> 32) % 2 ^ 16⟩

/-- An extent node: header depth and `max_entries_count`, plus the raw
entries (`entries_count` is the list length). -/
structure ExtNode where
  depth : Nat
  max_entries : Nat
  entries : List FakeExtent
  deriving DecidableEq, Repr

instance : Inhabited ExtNode := ⟨⟨0, 0, []⟩⟩

/-- `ExtentNodeMut::init(0, 0)` on a freshly allocated block (used at
extent.rs lines 241 and 248; the method body is absent from `src/`):
modelled from the spec as a fresh depth-0 header with no entries; a
4096-byte block holds at most `(BLOCK_SIZE - 12) / 12` entries after the
12-byte header. -/
def ExtNode.initBlock : ExtNode :=
  { depth := 0, max_entries := (BLOCK_SIZE - 12) / 12, entries := [] }

/-- `Ext4::split_root` (`src/src/ext4/extent.rs` lines 228-267), given
the two freshly allocated child blocks `l_bid` and `r_bid` (the
`alloc_block` results of lines 230-231) and the split-off entries:
initialise both children, copy all of the root's current entries into the
left child and `split` into the right child, then raise the root's depth
by 1, set its entry count to 2 and write the two `ExtentIndex` entries
`(left.extent_at(0).start_lblock(), l_bid)` and
`(right.extent_at(0).start_lblock(), r_bid)`.  `blocks` is the device's
view of extent-node blocks, updated at the two child ids. -/
def split_root (root : ExtNode) (blocks : Nat → ExtNode)
    (l_bid r_bid : Nat) (split : List FakeExtent) :
    ExtNode × (Nat → ExtNode) :=
  let left : ExtNode := { ExtNode.initBlock with entries := root.entries }
  let right : ExtNode := { ExtNode.initBlock with entries := split }
  let root' : ExtNode :=
    { depth := root.depth + 1
      max_entries := root.max_entries
      entries :=
        [FakeExtent.ofIndex (Ext4ExtentIndex.new
            (left.entries.getD 0 default).first_block l_bid),
         FakeExtent.ofIndex (Ext4ExtentIndex.new
            (right.entries.getD 0 default).first_block r_bid)] }
  (root', fun b => if b = r_bid then right else if b = l_bid then left else blocks b)

/-- `ExtentNodeMut::insert_extent` (called at extent.rs line 138; the
method body is absent from `src/`), modelled from the spec §4.5: shift
the following entries right and place the new extent at the insertion
index; if `entries_count` would exceed `max_entries_count`, split — keep
the left half in the node and return the right half (`Err(split)` in the
source).  The spec does not fix the split point; half of the overfull
list is used. -/
def insert_extent_spec (node : ExtNode) (ext : Ext4Extent) (pos : Nat) :
    ExtNode × Option (List FakeExtent) :=
  let all := node.entries.insertIdx pos (FakeExtent.ofExtent ext)
  if all.length ≤ node.max_entries then
    ({ node with entries := all }, none)
  else
    let mid := all.length / 2
    ({ node with entries := all.take mid }, some (all.drop mid))

/-- The root path of `Ext4::insert_extent` (`src/src/ext4/extent.rs`
lines 134-146): insert into the root node; when that returns a split,
call `split_root`. -/
def insert_extent_at_root (root : ExtNode) (blocks : Nat → ExtNode)
    (ext : Ext4Extent) (pos : Nat) (l_bid r_bid : Nat) :
    ExtNode × (Nat → ExtNode) :=
  match insert_extent_spec root ext pos with
  | (root', none) => (root', blocks)
  | (root', some split) => split_root root' blocks l_bid r_bid split

/-- The inode fields `rmdir` and `unlink_inode` read: whether the mode's
file type is directory, and the hard-link count.  `read_inode` always
yields a record (a freed inode reads back zeroed: not a directory, link
count 0), so the inode table is a total map. -/
structure MiniInode where
  isdir : Bool
  link_count : Nat
  deriving DecidableEq, Repr

/-- Filesystem view for the directory-removal claim: the inode table and
each directory inode's listing (`dir_get_all_entries`: the non-unused
records of the directory's blocks, in encounter order). -/
structure MiniFs where
  inodes : Nat → MiniInode
  dirs : Nat → List (List Char × Nat)

/-- Replace one inode record (an inode write-back). -/
def MiniFs.setInode (s : MiniFs) (id : Nat) (v : MiniInode) : MiniFs :=
  { s with inodes := fun i => if i = id then v else s.inodes i }

/-- `Ext4::dir_find_entry` at the listing level (its body is absent from
`src/`; modelled from the spec §4.6 Find): the first record whose name
matches exactly, else `ENOENT`. -/
def dir_find_entry (listing : List (List Char × Nat)) (name : List Char) :
    Except ErrCode Nat :=
  match listing.find? (fun e => e.1 = name) with
  | some e => .ok e.2
  | none => .error .ENOENT

/-- `Ext4::dir_remove_entry` (absent from `src/`; modelled from the spec
§4.6 Remove): find the record and set its inode to 0 preserving
`rec_len`, so the listing loses exactly that record; `ENOENT` when the
name is absent. -/
def dir_remove_entry (s : MiniFs) (parent : Nat) (name : List Char) :
    Except ErrCode MiniFs :=
  if (s.dirs parent).any (fun e => e.1 = name) then
    .ok { s with dirs := fun d =>
      if d = parent then (s.dirs parent).eraseP (fun e => e.1 = name)
      else s.dirs d }
  else .error .ENOENT

/-- `Ext4::free_inode` (`src/src/ext4/alloc.rs` lines 54-69) at the
listing abstraction: the data blocks are freed and the inode record is
zeroed and deallocated, so the inode reads back as the zero record (the
bitmap/counter bookkeeping is the subject of C2, not of this claim). -/
def free_inode (s : MiniFs) (child : Nat) : Except ErrCode MiniFs :=
  .ok (s.setInode child ⟨false, 0⟩)

/-- `Ext4::unlink_inode` (`src/src/ext4/link.rs` lines 37-64): remove the
directory entry; a directory child with link count ≤ 2 decrements the
parent's link count and is freed; a child with link count ≤ 1 is freed;
otherwise the child's link count is decremented. -/
def unlink_inode (s : MiniFs) (parent child : Nat) (name : List Char) :
    Except ErrCode MiniFs :=
  match dir_remove_entry s parent name with
  | .error e => .error e
  | .ok s1 =>
    let child_link_cnt := (s1.inodes child).link_count
    if (s1.inodes child).isdir = true ∧ child_link_cnt ≤ 2 then
      let s2 := s1.setInode parent
        ⟨(s1.inodes parent).isdir, (s1.inodes parent).link_count - 1⟩
      free_inode s2 child
    else if child_link_cnt ≤ 1 then
      free_inode s1 child
    else
      .ok (s1.setInode child ⟨(s1.inodes child).isdir, child_link_cnt - 1⟩)

/-- `Ext4::rmdir` (`src/src/ext4/low_level.rs` lines 433-450): the parent
must be a directory, the named child must exist and be a directory, its
listing must hold at most 2 entries (`ENOTEMPTY` otherwise), then the
entry is unlinked via `unlink_inode`. -/
def rmdir (s : MiniFs) (parent : Nat) (name : List Char) :
    Except ErrCode MiniFs :=
  if (s.inodes parent).isdir = true then
    match dir_find_entry (s.dirs parent) name with
    | .error e => .error e
    | .ok child =>
      if (s.inodes child).isdir = true then
        if 2 < (s.dirs child).length then .error .ENOTEMPTY
        else unlink_inode s parent child name
      else .error .ENOTDIR
  else .error .ENOTDIR

/-- Run an `Except`-returning operation against its starting state: Rust
mutates `self` in place and an early error return leaves the state as it
was at that point (no mutation precedes the `ENOTEMPTY` check in
`rmdir`). -/
def run_result (s : MiniFs) (r : Except ErrCode MiniFs) : MiniFs :=
  match r with
  | .ok s' => s'
  | .error _ => s

/-- Concrete filesystem for the C9 witness: root directory 2 holding
directories `d` (inode 5, listing exactly `.` and `..`) and `e`
(inode 6, listing `.`, `..` and a file `x`). -/
def c9_fs : MiniFs :=
  { inodes := fun i =>
      if i = 2 then ⟨true, 4⟩
      else if i = 5 then ⟨true, 2⟩
      else if i = 6 then ⟨true, 2⟩
      else if i = 9 then ⟨false, 1⟩
      else ⟨false, 0⟩
    dirs := fun d =>
      if d = 2 then [(['.'], 2), (['.', '.'], 2), (['d'], 5), (['e'], 6)]
      else if d = 5 then [(['.'], 5), (['.', '.'], 2)]
      else if d = 6 then [(['.'], 6), (['.', '.'], 2), (['x'], 9)]
      else [] }

/-- An extent `e` covers the logical block `lblock`. -/
def covers (e : Ext4Extent) (lblock : Nat) : Prop :=
  e.start_lblock ≤ lblock ∧ lblock < e.start_lblock + e.block_count

instance (e : Ext4Extent) (lblock : Nat) : Decidable (covers e lblock) :=
  inferInstanceAs (Decidable (_ ∧ _))

/-- Sortedness / non-overlap of a leaf node's extents (the spec's extent
invariant): each extent ends at or before the next one starts. -/
def leafSorted (entries : List Ext4Extent) : Prop :=
  entries.Pairwise (fun a b => a.start_lblock + a.block_count ≤ b.start_lblock)

instance (entries : List Ext4Extent) : Decidable (leafSorted entries) :=
  inferInstanceAs (Decidable (List.Pairwise _ _))

theorem extent_search_aux_miss (lblock : Nat) :
    ∀ (l : List Ext4Extent) (i : Nat),
      (∀ e ∈ l, ¬ covers e lblock) →
      ∃ j, extent_search_aux lblock l i = .error j := by
  intro l
  induction l with
  | nil => exact fun i _ => ⟨i, rfl⟩
  | cons e rest ih =>
    intro i hmiss
    by_cases h1 : e.start_lblock ≤ lblock
    · have h2 : ¬ lblock < e.start_lblock + e.block_count := by
        intro hc
        exact hmiss e (List.mem_cons_self _ _) ⟨h1, hc⟩
      have := ih (i + 1) (fun x hx => hmiss x (List.mem_cons_of_mem _ hx))
      simpa [extent_search_aux, h1, h2] using this
    · exact ⟨i, by simp [extent_search_aux, h1]⟩

theorem extent_search_aux_hit (lblock : Nat) :
    ∀ (l : List Ext4Extent), leafSorted l →
      ∀ e ∈ l, e.is_uninit = false → covers e lblock →
        ∀ i, ∃ k, ∃ hk : k < l.length,
          extent_search_aux lblock l i = .ok (i + k) ∧ l.get ⟨k, hk⟩ = e := by
  intro l
  induction l with
  | nil => intro _ e he; exact absurd he (List.not_mem_nil e)
  | cons a rest ih =>
    intro hsorted e he hinit hcov i
    rcases List.mem_cons.mp he with rfl | hrest
    · refine ⟨0, by simp, ?_, rfl⟩
      simp [extent_search_aux, hcov.1, hcov.2, hinit]
    · have hae : a.start_lblock + a.block_count ≤ e.start_lblock :=
        (List.pairwise_cons.mp hsorted).1 e hrest
      have h1 : a.start_lblock ≤ lblock := by
        have := hcov.1
        omega
      have h2 : ¬ lblock < a.start_lblock + a.block_count := by
        have := hcov.1
        omega
      obtain ⟨k, hk, hgo, hget⟩ :=
        ih (List.pairwise_cons.mp hsorted).2 e hrest hinit hcov (i + 1)
      refine ⟨k + 1, by simpa using Nat.succ_lt_succ hk, ?_, by simpa using hget⟩
      have : extent_search_aux lblock (a :: rest) i = extent_search_aux lblock rest (i + 1) := by
        simp [extent_search_aux, h1, h2]
      rw [this, hgo]
      congr 1
      omega

/-- C3.  For a leaf extent node whose extents satisfy the spec's
sortedness / non-overlap invariant: if some initialised extent covers
`lblock`, the query (`Ext4::extent_get_pblock`, `src/src/ext4/extent.rs`
lines 59-84, searching via `ExtentNode::extent_search`,
`src/src/ext4_defs/extent.rs` lines 271-285) returns
`start_pblock + (lblock - first_lblock)` of that extent; if no extent
covers `lblock`, it returns `ENOENT`. -/
theorem extent_get_pblock_correct (entries : List Ext4Extent) (lblock : Nat)
    (hsorted : leafSorted entries) :
    (∀ e ∈ entries, e.is_uninit = false → covers e lblock →
      extent_get_pblock entries lblock =
        .ok (e.start_pblock + (lblock - e.start_lblock))) ∧
    ((∀ e ∈ entries, ¬ covers e lblock) →
      extent_get_pblock entries lblock = .error .ENOENT) := by
  constructor
  · intro e he hinit hcov
    obtain ⟨k, hk, hgo, hget⟩ :=
      extent_search_aux_hit lblock entries hsorted e he hinit hcov 0
    have hsearch : extent_search entries lblock = .ok k := by
      simpa [extent_search] using hgo
    have hgetD : entries.getD k default = e := by
      rw [List.getD_eq_getElem entries default hk]
      rw [← hget]
      exact (List.get_eq_getElem entries ⟨k, hk⟩).symm
    have hout : extent_get_pblock entries lblock =
        .ok ((entries.getD k default).start_pblock +
          (lblock - (entries.getD k default).start_lblock)) := by
      simp only [extent_get_pblock, hsearch]
    rw [hout, hgetD]
  · intro hmiss
    obtain ⟨j, hj⟩ := extent_search_aux_miss lblock entries 0 hmiss
    have hsearch : extent_search entries lblock = .error j := hj
    simp [extent_get_pblock, hsearch]

/-- Witness for C3: a concrete two-extent leaf.  The extent
`(first_lblock 5, len 2, pblock 200)` covers `lblock = 6`, and the query
returns `200 + (6 - 5) = 201`. -/
theorem extent_get_pblock_correct_witness :
    extent_get_pblock [⟨0, 1, 0, 100⟩, ⟨5, 2, 0, 200⟩] 6 = .ok 201 :=
  (extent_get_pblock_correct [⟨0, 1, 0, 100⟩, ⟨5, 2, 0, 200⟩] 6 (by decide)).1
    ⟨5, 2, 0, 200⟩ (by decide) (by decide) (by decide)

/-- C4.  On an interior node whose every index entry satisfies
`first_lblock ≤ lblock`, `ExtentNode::extent_index_search`
(`src/src/ext4_defs/extent.rs` lines 293-305) does NOT select the last
entry: it reports the failure `Err(entries_count)`, on which
`Ext4::find_extent` (`src/src/ext4/extent.rs` lines 33-38) hits
`panic!("Unhandled error")` (modelled as `none`), while the spec's
descent rule selects the greatest entry with `first_lblock ≤ lblock`,
namely the last one (position 1 here). -/
theorem extent_index_search_all_le_fails :
    extent_index_search [⟨0, 10, 0⟩, ⟨100, 20, 0⟩] 200 = .error 2 ∧
    find_extent_index_step [⟨0, 10, 0⟩, ⟨100, 20, 0⟩] 200 = none ∧
    spec_index_select [⟨0, 10, 0⟩, ⟨100, 20, 0⟩] 200 = some 1 := by
  refine ⟨rfl, rfl, rfl⟩

/-- C1 (counterexample).  On a freshly created file (size 0, block count 0,
empty extent root, free space available), a single call to
`inode_append_block` leaves `block_count = 2`, not `0 + 1`: the data-block
allocation inside `extent_get_pblock_create` already added
`BLOCK_SIZE / INODE_BLOCK_SIZE = 1` (alloc.rs line 126) before
`inode_append_block` added its own 1 (alloc.rs line 86). -/
theorem inode_append_block_fresh_gives_two :
    ((inode_append_block ⟨[0], 100, 100, 0⟩ 0 []).map
      (fun r => r.1.inode_block_count)) = .ok 2 ∧ (2 : Nat) ≠ 0 + 1 :=
  ⟨rfl, by decide⟩

/-- C1 (amended).  A terminating call to `inode_append_block` whose
target logical block is already mapped increments the inode's block
count by exactly 1; a call that allocates never adds exactly 1: it adds
2 (1 in `alloc_block`, 1 in `inode_append_block` itself) when the root
extent node still has room, and 4 when the insertion overflows the full
root and `split_root` allocates the two child blocks (1 more each,
alloc.rs line 126).  In particular the first append to a freshly created
file leaves `block_count = 2`, not 1. -/
theorem inode_append_block_count_change (s : BlockAllocState)
    (inode_size : Nat) (extents : List Ext4Extent)
    (s' : BlockAllocState) (tree : RootTree) (ib fb : Nat)
    (hok : inode_append_block s inode_size extents = .ok (s', tree, ib, fb)) :
    (∀ i, extent_search extents ((inode_size + BLOCK_SIZE - 1) / BLOCK_SIZE) = .ok i →
      s'.inode_block_count = s.inode_block_count + 1) ∧
    (∀ pos, extent_search extents ((inode_size + BLOCK_SIZE - 1) / BLOCK_SIZE) = .error pos →
      pos ≤ extents.length →
      (extents.length + 1 ≤ ROOT_MAX_ENTRIES →
        s'.inode_block_count = s.inode_block_count + 2) ∧
      (¬ extents.length + 1 ≤ ROOT_MAX_ENTRIES →
        s'.inode_block_count = s.inode_block_count + 4)) := by
  constructor
  · intro i hi
    simp only [inode_append_block, extent_get_pblock_create, hi] at hok
    simp only [Except.ok.injEq, Prod.mk.injEq] at hok
    obtain ⟨hs, -⟩ := hok
    rw [← hs]
  · intro pos hpos hposle
    have hlen : ∀ a : Ext4Extent,
        (extents.insertIdx pos a).length = extents.length + 1 :=
      fun a => (List.length_insertIdx pos extents hposle :
        (extents.insertIdx pos a).length = extents.length + 1)
    simp only [inode_append_block, extent_get_pblock_create, hpos] at hok
    cases hfb : find_and_set_first_clear_bit s.block_bitmap 0 (8 * BLOCK_SIZE) with
    | none => simp [alloc_block, hfb] at hok
    | some p =>
      obtain ⟨bm1, fb1⟩ := p
      simp only [alloc_block, hfb] at hok
      by_cases hroom : extents.length + 1 ≤ ROOT_MAX_ENTRIES
      · refine ⟨fun _ => ?_, fun hfull => absurd hroom hfull⟩
        simp only [insert_extent_depth0, insert_extent_leaf_root, hlen, hroom,
          if_true] at hok
        simp only [Except.ok.injEq, Prod.mk.injEq] at hok
        obtain ⟨hs, -⟩ := hok
        rw [← hs]
        simp [BLOCK_SIZE, INODE_BLOCK_SIZE]
      · refine ⟨fun hroom2 => absurd hroom2 hroom, fun _ => ?_⟩
        simp only [insert_extent_depth0, insert_extent_leaf_root, hlen, hroom,
          if_false] at hok
        cases hfb2 : find_and_set_first_clear_bit bm1 0 (8 * BLOCK_SIZE) with
        | none => simp [alloc_block, hfb2] at hok
        | some q =>
          obtain ⟨bm2, fb2⟩ := q
          simp only [alloc_block, hfb2] at hok
          cases hfb3 : find_and_set_first_clear_bit bm2 0 (8 * BLOCK_SIZE) with
          | none => simp [alloc_block, hfb3] at hok
          | some r =>
            obtain ⟨bm3, fb3⟩ := r
            simp only [alloc_block, hfb3] at hok
            simp only [Except.ok.injEq, Prod.mk.injEq] at hok
            obtain ⟨hs, -⟩ := hok
            rw [← hs]
            simp [BLOCK_SIZE, INODE_BLOCK_SIZE]

/-- Witness for C1's amended theorem: on a fresh file the allocating
append raises the block count from 0 to exactly 0 + 2; on a file whose
root already holds 4 extents (blocks 0-3, size 16384) the allocating
append overflows the root and raises the count from 7 to exactly
7 + 4. -/
theorem inode_append_block_count_change_witness :
    ((⟨[1], 99, 99, 2⟩ : BlockAllocState).inode_block_count =
      (⟨[0], 100, 100, 0⟩ : BlockAllocState).inode_block_count + 2) ∧
    ((⟨[7], 97, 97, 11⟩ : BlockAllocState).inode_block_count =
      (⟨[0], 100, 100, 7⟩ : BlockAllocState).inode_block_count + 4) :=
  ⟨((inode_append_block_count_change ⟨[0], 100, 100, 0⟩ 0 []
      ⟨[1], 99, 99, 2⟩ (.leaf [⟨0, 1, 0, 0⟩]) 0 0 rfl).2
      0 rfl (by decide)).1 (by decide),
   ((inode_append_block_count_change ⟨[0], 100, 100, 7⟩ 16384
      [⟨0, 1, 0, 50⟩, ⟨1, 1, 0, 51⟩, ⟨2, 1, 0, 52⟩, ⟨3, 1, 0, 53⟩]
      ⟨[7], 97, 97, 11⟩
      (.indexed 1 2 [⟨0, 1, 0, 50⟩, ⟨1, 1, 0, 51⟩]
        [⟨2, 1, 0, 52⟩, ⟨3, 1, 0, 53⟩, ⟨4, 1, 0, 0⟩])
      4 0 rfl).2 4 rfl (by decide)).2 (by decide)⟩

/-- C2.  Freeing an inode does not increment the superblock's free-inode
count: `dealloc_inode` (alloc.rs line 307) calls
`decrease_free_inodes_count`, so on a state satisfying the sum invariant
(group free-inode count 5 = superblock free-inode count 5), freeing inode
1 leaves the group count at 6 but the superblock count at 4 — the claimed
invariant `sum of group counts = superblock count` is destroyed, and the
superblock count moved by -1 instead of the claimed +1. -/
theorem dealloc_inode_breaks_free_inode_invariant :
    ((dealloc_inode ⟨[1], ⟨5, 0, 3, 0, 2, 0⟩, ⟨5⟩, 8, 64⟩ 1 false).map
      (fun s => (get_free_inodes_count s.desc, s.sb.free_inodes_count)) =
        .ok (6, 4)) ∧
    (4 : Nat) ≠ 5 + 1 ∧ (6 : Nat) ≠ 4 :=
  ⟨rfl, by decide, by decide⟩

/-- C10.  `set_used_dirs_count` (block_group.rs lines 110-115) stores the
new count into the `itable_unused` fields, so allocating a directory inode
(through `alloc_inode`, alloc.rs lines 227-231) leaves the descriptor's
`used_dirs_count` fields unchanged at 3 (instead of 4) while clobbering
`itable_unused_lo` to 4; freeing a directory inode likewise leaves the
`used_dirs_count` fields at 3 (instead of 2). -/
theorem set_used_dirs_count_writes_itable_fields :
    ((alloc_inode ⟨[0], ⟨5, 0, 3, 0, 2, 0⟩, ⟨5⟩, 8, 64⟩ true).map
      (fun r => (r.1.desc.used_dirs_count_lo, r.1.desc.used_dirs_count_hi,
        r.1.desc.itable_unused_lo)) = .ok (3, 0, 4)) ∧
    ((dealloc_inode ⟨[1], ⟨5, 0, 3, 0, 2, 0⟩, ⟨5⟩, 8, 64⟩ 1 true).map
      (fun s => (s.desc.used_dirs_count_lo, s.desc.used_dirs_count_hi)) =
        .ok (3, 0)) ∧
    (3 : Nat) ≠ 3 + 1 :=
  ⟨rfl, rfl, by decide⟩

theorem c5_walk_stuck_at_hole (fuel : Nat) :
    dir_try_insert_walk c5_block 4096 (dir_required_len 1) fuel 12 = none := by
  induction fuel with
  | zero => rfl
  | succ f ih => simpa [dir_try_insert_walk, c5_block] using ih

/-- C5.  On a directory block tiled as `Remove` leaves it — a used record
at offset 0 with no slack, then an unused record (`inode_id == 0`,
`rec_len` preserved, free space 4072 - 12 ≥ required = 268) — the
first-pass walk of `ext4_dir_try_insert_entry` (dir.rs lines 146-205)
never terminates: `if de.inode == 0 { continue; }` re-reads offset 12
forever, for every fuel value.  The hole is never reclaimed and the
claimed termination fails. -/
theorem dir_try_insert_walk_diverges_on_hole :
    ∀ fuel, dir_try_insert_walk c5_block 4096 (dir_required_len 1) fuel 0 = none := by
  intro fuel
  cases fuel with
  | zero => rfl
  | succ f =>
    have hstep : dir_try_insert_walk c5_block 4096 (dir_required_len 1) (f + 1) 0 =
        dir_try_insert_walk c5_block 4096 (dir_required_len 1) f 12 := by
      simp [dir_try_insert_walk, c5_block, dir_used_size, dir_required_len,
        SIZE_OF_DIR_ENTRY, SIZE_OF_FAKE_DIR_ENTRY]
    rw [hstep]
    exact c5_walk_stuck_at_hole f

/-- C6.  `split_path` (high_level.rs lines 150-156) discards the trimmed
path, so `generic_lookup(root, "/a")` walks the segments `["", "a"]`,
fails on the empty name with `ENOENT`, and differs from
`generic_lookup(root, "a") = Ok 5`; the spec-side split of "/a" is
`["a"]`. -/
theorem generic_lookup_leading_slash_differs :
    generic_lookup c6_isdir c6_dirs 2 ['/', 'a'] = .error .ENOENT ∧
    generic_lookup c6_isdir c6_dirs 2 ['a'] = .ok 5 ∧
    split_path ['/', 'a'] = [[], ['a']] ∧
    spec_split_path ['/', 'a'] = [['a']] :=
  ⟨rfl, rfl, rfl, rfl⟩

/-- C7 (counterexample).  At `offset = 1 > size = 0` the clamp
`inode.size() as usize - offset` underflows: with the fresh file's empty
extent tree the wrapped `read_size` makes the loop query logical block 0
and panic on `.unwrap()` (result `none`); even with a block mapped, the
code copies 1 byte where the claimed clamp `min(buf.len(), size - offset)`
is 0.  Read is therefore not well-defined for `offset > size`. -/
theorem ext4_read_offset_past_size_misbehaves :
    ext4_read 0 1 1 (fun _ => none) (fun _ _ => 0) = none ∧
    (ext4_read 0 1 1 (fun _ => some 0) (fun _ _ => 7)).map List.length = some 1 ∧
    (1 : Nat) ≠ min 1 (0 - 1) :=
  ⟨rfl, rfl, by decide⟩

theorem read_loop_length (pb : Nat → Nat) (dev : Nat → Nat → Nat)
    (read_size : Nat) :
    ∀ fuel cursor iblock acc, read_size - cursor ≤ fuel →
      ∃ l, read_loop (fun b => some (pb b)) dev read_size fuel cursor iblock acc
          = some l ∧
        l.length = acc.length + (read_size - cursor) := by
  intro fuel
  induction fuel with
  | zero =>
    intro cursor iblock acc hf
    have hge : ¬ cursor < read_size := by omega
    exact ⟨acc, by simp [read_loop, hge], by omega⟩
  | succ f ih =>
    intro cursor iblock acc hf
    by_cases h : cursor < read_size
    · have h1 : 1 ≤ min BLOCK_SIZE (read_size - cursor) := by
        refine le_min ?_ (by omega)
        norm_num [BLOCK_SIZE]
      have h2 : min BLOCK_SIZE (read_size - cursor) ≤ read_size - cursor :=
        min_le_right _ _
      obtain ⟨l, hl, hlen⟩ := ih (cursor + min BLOCK_SIZE (read_size - cursor))
        (iblock + 1)
        (acc ++ (List.range (min BLOCK_SIZE (read_size - cursor))).map
          (fun k => dev (pb iblock) k)) (by omega)
      refine ⟨l, ?_, ?_⟩
      · simpa [read_loop, h] using hl
      · rw [hlen]
        simp only [List.length_append, List.length_map, List.length_range]
        omega
    · exact ⟨acc, by simp [read_loop, h], by omega⟩

/-- C7 (amended).  For `offset ≤ size` (and every needed block mapped
by the extent tree), `read` is well-defined and copies exactly
`min(buf.len(), inode.size() - offset)` bytes from the file's blocks;
for `offset > size` the subtraction underflows and read misbehaves
(see the counterexample). -/
theorem ext4_read_length_when_offset_le_size (size offset buf_len : Nat)
    (pb : Nat → Nat) (dev : Nat → Nat → Nat)
    (hoff : offset ≤ size) (hsz : size < USIZE_MOD) :
    ∃ l, ext4_read size offset buf_len (fun b => some (pb b)) dev = some l ∧
      l.length = min buf_len (size - offset) := by
  by_cases hb : buf_len = 0
  · exact ⟨[], by simp [ext4_read, hb], by simp [hb]⟩
  · have hoffm : offset < USIZE_MOD := lt_of_le_of_lt hoff hsz
    have hclamp : (size % USIZE_MOD + (USIZE_MOD - offset % USIZE_MOD)) % USIZE_MOD
        = size - offset := by
      rw [Nat.mod_eq_of_lt hsz, Nat.mod_eq_of_lt hoffm]
      have hrw : size + (USIZE_MOD - offset) = (size - offset) + USIZE_MOD := by
        omega
      rw [hrw, Nat.add_mod_right]
      exact Nat.mod_eq_of_lt (by omega)
    by_cases hm : 0 < offset % BLOCK_SIZE
    · have hrl : min (BLOCK_SIZE - offset % BLOCK_SIZE)
          (min buf_len (size - offset)) ≤ min buf_len (size - offset) :=
        min_le_right _ _
      obtain ⟨l, hl, hlen⟩ := read_loop_length pb dev (min buf_len (size - offset))
        (min buf_len (size - offset))
        (min (BLOCK_SIZE - offset % BLOCK_SIZE) (min buf_len (size - offset)))
        (offset / BLOCK_SIZE + 1)
        ((List.range (min (BLOCK_SIZE - offset % BLOCK_SIZE)
          (min buf_len (size - offset)))).map
          (fun k => dev (pb (offset / BLOCK_SIZE)) (offset % BLOCK_SIZE + k)))
        (by omega)
      refine ⟨l, ?_, ?_⟩
      · simpa [ext4_read, hb, hclamp, hm] using hl
      · rw [hlen]
        simp only [List.length_map, List.length_range]
        omega
    · obtain ⟨l, hl, hlen⟩ := read_loop_length pb dev (min buf_len (size - offset))
        (min buf_len (size - offset)) 0 (offset / BLOCK_SIZE) [] (by omega)
      refine ⟨l, ?_, ?_⟩
      · simpa [ext4_read, hb, hclamp, hm] using hl
      · rw [hlen]
        simp

/-- Witness for C7's amended theorem: reading 8000 bytes at offset 100 of
a 5000-byte file whose blocks are all mapped returns exactly
`min 8000 4900 = 4900` bytes. -/
theorem ext4_read_length_witness :
    ∃ l, ext4_read 5000 100 8000 (fun b => some b) (fun _ _ => 7) = some l ∧
      l.length = min 8000 (5000 - 100) :=
  ext4_read_length_when_offset_le_size 5000 100 8000 (fun b => b) (fun _ _ => 7)
    (by decide) (by decide)

/-- C8.  Inserting an extent into a full root node (`entries_count =
max_entries_count`, insertion position within bounds, distinct fresh
child blocks) raises the tree's depth by exactly 1 and leaves the root
holding exactly two `ExtentIndex` entries — `(first_lblock of left child,
l_bid)` and `(first_lblock of right child, r_bid)`; the left child block
holds exactly the entries the root held at the split and the right child
block the split-off entries, and together the two children hold precisely
the root's original entries with the new extent inserted at its
position. -/
theorem insert_extent_full_root_splits (root : ExtNode) (blocks : Nat → ExtNode)
    (ext : Ext4Extent) (pos : Nat) (l_bid r_bid : Nat)
    (hfull : root.entries.length = root.max_entries)
    (hpos : pos ≤ root.entries.length)
    (hdist : l_bid ≠ r_bid) :
    ∃ rootNew dev,
      insert_extent_at_root root blocks ext pos l_bid r_bid = (rootNew, dev) ∧
      rootNew.depth = root.depth + 1 ∧
      rootNew.entries =
        [FakeExtent.ofIndex (Ext4ExtentIndex.new
            ((dev l_bid).entries.getD 0 default).first_block l_bid),
         FakeExtent.ofIndex (Ext4ExtentIndex.new
            ((dev r_bid).entries.getD 0 default).first_block r_bid)] ∧
      (dev l_bid).entries =
        (root.entries.insertIdx pos (FakeExtent.ofExtent ext)).take
          ((root.entries.length + 1) / 2) ∧
      (dev r_bid).entries =
        (root.entries.insertIdx pos (FakeExtent.ofExtent ext)).drop
          ((root.entries.length + 1) / 2) ∧
      (dev l_bid).entries ++ (dev r_bid).entries =
        root.entries.insertIdx pos (FakeExtent.ofExtent ext) := by
  have hlen : (root.entries.insertIdx pos (FakeExtent.ofExtent ext)).length =
      root.entries.length + 1 :=
    List.length_insertIdx pos root.entries hpos
  have hover : ¬ root.entries.length + 1 ≤ root.max_entries := by omega
  have key : insert_extent_at_root root blocks ext pos l_bid r_bid =
      split_root
        { root with entries := ((root.entries.insertIdx pos
            (FakeExtent.ofExtent ext)).take ((root.entries.length + 1) / 2)) }
        blocks l_bid r_bid
        ((root.entries.insertIdx pos (FakeExtent.ofExtent ext)).drop
          ((root.entries.length + 1) / 2)) := by
    simp only [insert_extent_at_root, insert_extent_spec, hlen, hover, if_false]
  rw [key]
  refine ⟨_, _, rfl, ?_, ?_, ?_, ?_, ?_⟩
  · simp [split_root]
  · simp [split_root, hdist]
  · simp [split_root, hdist]
  · simp [split_root, hdist]
  · simp [split_root, hdist, List.take_append_drop]

/-- Witness for C8: a root with `max_entries = 4` (the inode's 60-byte
area) holding four extents with `first_lblock` 0, 10, 20, 30; inserting a
fifth extent at `first_lblock` 40 (position 4) with children 100 and 101
yields a depth-1 root over `[e0, e1]` and `[e2, e3, e40]`. -/
theorem insert_extent_full_root_splits_witness :
    ∃ rootNew dev,
      insert_extent_at_root
        ⟨0, 4, [⟨0, 0, 0⟩, ⟨10, 0, 0⟩, ⟨20, 0, 0⟩, ⟨30, 0, 0⟩]⟩
        (fun _ => ExtNode.initBlock) ⟨40, 1, 0, 77⟩ 4 100 101 =
        (rootNew, dev) ∧
      rootNew.depth = 0 + 1 ∧
      rootNew.entries =
        [FakeExtent.ofIndex (Ext4ExtentIndex.new
            ((dev 100).entries.getD 0 default).first_block 100),
         FakeExtent.ofIndex (Ext4ExtentIndex.new
            ((dev 101).entries.getD 0 default).first_block 101)] ∧
      (dev 100).entries =
        (([⟨0, 0, 0⟩, ⟨10, 0, 0⟩, ⟨20, 0, 0⟩, ⟨30, 0, 0⟩] :
          List FakeExtent).insertIdx 4 (FakeExtent.ofExtent ⟨40, 1, 0, 77⟩)).take
          ((4 + 1) / 2) ∧
      (dev 101).entries =
        (([⟨0, 0, 0⟩, ⟨10, 0, 0⟩, ⟨20, 0, 0⟩, ⟨30, 0, 0⟩] :
          List FakeExtent).insertIdx 4 (FakeExtent.ofExtent ⟨40, 1, 0, 77⟩)).drop
          ((4 + 1) / 2) ∧
      (dev 100).entries ++ (dev 101).entries =
        ([⟨0, 0, 0⟩, ⟨10, 0, 0⟩, ⟨20, 0, 0⟩, ⟨30, 0, 0⟩] :
          List FakeExtent).insertIdx 4 (FakeExtent.ofExtent ⟨40, 1, 0, 77⟩) :=
  insert_extent_full_root_splits
    ⟨0, 4, [⟨0, 0, 0⟩, ⟨10, 0, 0⟩, ⟨20, 0, 0⟩, ⟨30, 0, 0⟩]⟩
    (fun _ => ExtNode.initBlock) ⟨40, 1, 0, 77⟩ 4 100 101
    (by decide) (by decide) (by decide)

/-- C9.  With a directory parent whose listing maps `name` to a directory
child: when the child's listing is exactly `.` and `..`, `rmdir`
succeeds; when the listing holds more than two entries, `rmdir` fails
with `ENOTEMPTY` and the child inode is untouched (no state mutation
precedes the emptiness check). -/
theorem rmdir_empty_and_nonempty (s : MiniFs) (parent childId : Nat)
    (name : List Char)
    (hp : (s.inodes parent).isdir = true)
    (hfind : dir_find_entry (s.dirs parent) name = .ok childId)
    (hc : (s.inodes childId).isdir = true) :
    ((s.dirs childId).map Prod.fst = [['.'], ['.', '.']] →
      ∃ s', rmdir s parent name = .ok s') ∧
    (2 < (s.dirs childId).length →
      rmdir s parent name = .error .ENOTEMPTY ∧
      (run_result s (rmdir s parent name)).inodes childId = s.inodes childId) := by
  have hany : (s.dirs parent).any (fun e => e.1 = name) = true := by
    cases hfd : (s.dirs parent).find? (fun e => decide (e.1 = name)) with
    | none =>
      unfold dir_find_entry at hfind
      rw [hfd] at hfind
      simp at hfind
    | some e =>
      have hmem := List.mem_of_find?_eq_some hfd
      have hpe := List.find?_some hfd
      exact List.any_eq_true.mpr ⟨e, hmem, hpe⟩
  constructor
  · intro hdot
    have hlen2 : (s.dirs childId).length = 2 := by
      have := congrArg List.length hdot
      simpa using this
    have hnottoomany : ¬ 2 < (s.dirs childId).length := by omega
    by_cases hl : (s.inodes childId).link_count ≤ 2
    · simp [rmdir, hp, hfind, hc, hnottoomany, unlink_inode,
        dir_remove_entry, hany, hl, free_inode]
    · have hl1 : ¬ (s.inodes childId).link_count ≤ 1 := by omega
      simp [rmdir, hp, hfind, hc, hnottoomany, unlink_inode,
        dir_remove_entry, hany, hl, hl1, free_inode]
  · intro htoomany
    have hres : rmdir s parent name = .error .ENOTEMPTY := by
      simp only [rmdir, hp, if_true, hfind, hc, htoomany]
    exact ⟨hres, by rw [hres]; rfl⟩

/-- Witness for C9: in the concrete filesystem `c9_fs`, removing `d`
(child 5, listing exactly `.` `..`) succeeds, while removing `e`
(child 6, a third entry `x`) fails with `ENOTEMPTY` leaving inode 6
untouched. -/
theorem rmdir_empty_and_nonempty_witness :
    (∃ s', rmdir c9_fs 2 ['d'] = .ok s') ∧
    (rmdir c9_fs 2 ['e'] = .error .ENOTEMPTY ∧
      (run_result c9_fs (rmdir c9_fs 2 ['e'])).inodes 6 = c9_fs.inodes 6) :=
  ⟨(rmdir_empty_and_nonempty c9_fs 2 5 ['d'] rfl rfl rfl).1 rfl,
   (rmdir_empty_and_nonempty c9_fs 2 6 ['e'] rfl rfl rfl).2 (by decide)⟩

end Ext4V
